import Mathlib

/-!
Verification of the geometric-transformation core of
`Rohanbagulwar/geometric_transformation` (src/app.py).

The `ImageTransformer` class of the repository is a thin wrapper: each method
builds parameters (a 2x3 or 3x3 matrix, a target canvas size) and forwards
them to the OpenCV library (`cv2.resize`, `cv2.getRotationMatrix2D`,
`cv2.warpAffine`, `cv2.getAffineTransform`, `cv2.getPerspectiveTransform`,
`cv2.warpPerspective`).  The library functions themselves are not part of
the repository source, so they are modelled here from the specification
(§3, §4, §7, glossary): images are dense rasters of natural-number samples,
coordinates are exact rationals, warps back-map every destination pixel
through the inverse of the forward matrix (glossary "Back-mapping"),
sample bilinearly inside the source bounds and fill the constant border
value 0 outside (§9 "documented default (constant zero fill)"), and the
matrix solvers report degenerate geometry as an error result (§7).
The wrapper methods themselves are translated directly from src/app.py.
-/

/-- An in-memory raster image (spec §3): `rows × cols × channels`
unsigned samples.  `px y x c` is the sample at row `y`, column `x`,
channel `c`; values at out-of-range indices are irrelevant (all
operations and the equivalence below only consult in-range indices). -/
structure Image where
  rows : ℕ
  cols : ℕ
  channels : ℕ
  px : ℕ → ℕ → ℕ → ℕ

/-- Extensional image equality: same geometry and the same sample at
every in-bounds position. -/
def Image.Same (a b : Image) : Prop :=
  a.rows = b.rows ∧ a.cols = b.cols ∧ a.channels = b.channels ∧
    ∀ y x c, y < a.rows → x < a.cols → c < a.channels → a.px y x c = b.px y x c

/-- A point in image space (spec §3 Point2D): x = column, y = row. -/
abbrev P2 : Type := ℚ × ℚ

/-- Same output geometry: equal row count, column count and channel
count. -/
def sameGeom (a b : Image) : Prop :=
  a.rows = b.rows ∧ a.cols = b.cols ∧ a.channels = b.channels

/-- Three collinear points: the cross product of the two difference
vectors vanishes (spec glossary "Degenerate geometry"). -/
def collinear3 (p q r : P2) : Prop :=
  (q.1 - p.1) * (r.2 - p.2) - (q.2 - p.2) * (r.1 - p.1) = 0

/-- Source fetch at integer coordinates with the constant-zero border
(spec §9: documented default border policy is constant zero fill). -/
def Image.at0 (img : Image) (y x : ℤ) (c : ℕ) : ℚ :=
  if 0 ≤ y ∧ y < (img.rows : ℤ) ∧ 0 ≤ x ∧ x < (img.cols : ℤ) then
    (img.px y.toNat x.toNat c : ℚ)
  else 0

/-- Whether a back-mapped source coordinate lies within the source image
bounds `[0, cols-1] × [0, rows-1]` (spec §4: "if within source bounds,
sample ...; otherwise fill border value"). -/
def inSrcBounds (img : Image) (p : P2) : Bool :=
  decide (0 ≤ p.1 ∧ p.1 ≤ (img.cols : ℚ) - 1 ∧ 0 ≤ p.2 ∧ p.2 ≤ (img.rows : ℚ) - 1)

/-- Bilinear interpolation at a rational source coordinate (spec §4
shared warp algorithm, default bilinear sampling): the four neighbours
of `(x, y)` weighted by the fractional parts. -/
def bilinearAt (img : Image) (p : P2) (c : ℕ) : ℚ :=
  let x0 : ℤ := ⌊p.1⌋
  let y0 : ℤ := ⌊p.2⌋
  let a : ℚ := p.1 - (x0 : ℚ)
  let b : ℚ := p.2 - (y0 : ℚ)
  (1 - a) * (1 - b) * img.at0 y0 x0 c + a * (1 - b) * img.at0 y0 (x0 + 1) c +
    (1 - a) * b * img.at0 (y0 + 1) x0 c + a * b * img.at0 (y0 + 1) (x0 + 1) c

/-- A bilinear sample rounded back to an integer sample value.  All
in-range samples are 8-bit and a convex bilinear combination of values in
`[0, 255]` stays in `[0, 255]`, so saturation never fires and is omitted. -/
def sampleBilinear (img : Image) (p : P2) (c : ℕ) : ℕ :=
  (round (bilinearAt img p c)).toNat

/-- A 2x3 affine matrix [[a, b, c], [d, e, f]] (spec §3 TransformMatrix),
mapping (x, y) to (a·x + b·y + c, d·x + e·y + f). -/
structure Aff where
  a : ℚ
  b : ℚ
  c : ℚ
  d : ℚ
  e : ℚ
  f : ℚ

/-- Apply a 2x3 affine matrix to a point. -/
def Aff.apply (M : Aff) (p : P2) : P2 :=
  (M.a * p.1 + M.b * p.2 + M.c, M.d * p.1 + M.e * p.2 + M.f)

/-- Inverse of a 2x3 affine matrix `[A | t]`, namely `[A⁻¹ | -A⁻¹·t]`,
or `none` when the linear part is singular. -/
def Aff.inv (M : Aff) : Option Aff :=
  let det := M.a * M.e - M.b * M.d
  if det = 0 then none
  else some
    ⟨M.e / det, -M.b / det, (M.b * M.f - M.c * M.e) / det,
     -M.d / det, M.a / det, (M.c * M.d - M.a * M.f) / det⟩

/-- Modelled from the spec: the source coordinate that the affine warp
samples for destination pixel `(x, y)` — the destination point mapped
through the inverse of the forward matrix (glossary "Back-mapping: for
each destination pixel, compute the corresponding source coordinate via
the inverse transform"); `none` when the matrix is singular. -/
def warpAffineBackmap (M : Aff) (x y : ℕ) : Option P2 :=
  (Aff.inv M).map (fun Mi => Mi.apply ((x : ℚ), (y : ℚ)))

/-- Modelled from the spec: `cv2.warpAffine` (not part of the repository
source).  Spec §4 shared warp algorithm: the output canvas has the given
`(width, height)` and the channel count of the input; every destination pixel
is back-mapped through the inverse matrix, sampled bilinearly when the
source coordinate is within the source bounds, and filled with the
constant border value 0 otherwise. -/
def warpAffine (img : Image) (M : Aff) (dsize : ℕ × ℕ) : Image :=
  { rows := dsize.2, cols := dsize.1, channels := img.channels,
    px := fun y x c =>
      match warpAffineBackmap M x y with
      | none => 0
      | some p => if inSrcBounds img p then sampleBilinear img p c else 0 }

/-- The error kinds of spec §7. -/
inductive Err where
  | invalidParameter : Err
  | degenerateGeometry : Err
  | dimensionMismatch : Err
deriving DecidableEq, Repr

/-- The wrapper class of src/app.py lines 9-18: constructed with one
source image, stored in the `image` attribute. -/
structure ImageTransformer where
  image : Image

/-- src/app.py line 68: the translation matrix [[1, 0, dx], [0, 1, dy]]. -/
def translationMatrix (dx dy : ℚ) : Aff :=
  ⟨1, 0, dx, 0, 1, dy⟩

/-- src/app.py lines 58-69 (`ImageTransformer.translate`): build
M = [[1, 0, dx], [0, 1, dy]] and warp onto a canvas of the input size
(shape[1], shape[0]) = (cols, rows). -/
def ImageTransformer.translate (t : ImageTransformer) (dx dy : ℚ) : Image :=
  warpAffine t.image (translationMatrix dx dy) (t.image.cols, t.image.rows)

/-- Modelled from the spec: `cv2.getRotationMatrix2D` (not part of the
repository source).  Spec §4.1 rotate: matrix
[[α, β, (1-α)·cx - β·cy], [-β, α, β·cx + (1-α)·cy]] with α = scale·cosθ
and β = scale·sinθ about the given center.  The angle enters through its
exact cosine `co` and sine `si` so the model stays in exact rational
arithmetic (cos 0° = 1, sin 0° = 0, cos 180° = -1, sin 180° = 0, ...). -/
def getRotationMatrix2D (center : P2) (co si scale : ℚ) : Aff :=
  let α := scale * co
  let β := scale * si
  ⟨α, β, (1 - α) * center.1 - β * center.2,
   -β, α, β * center.1 + (1 - α) * center.2⟩

/-- src/app.py lines 32-43 (`ImageTransformer.rotate`): take
(rows, cols) = shape[:2], build the rotation matrix about
(cols / 2, rows / 2) with unit scale, and warp onto a canvas of size
(cols, rows).  The angle is passed as its exact cosine and sine. -/
def ImageTransformer.rotate (t : ImageTransformer) (co si : ℚ) : Image :=
  let rows := t.image.rows
  let cols := t.image.cols
  let M := getRotationMatrix2D ((cols : ℚ) / 2, (rows : ℚ) / 2) co si 1
  warpAffine t.image M (cols, rows)

/-- Modelled from the spec: `cv2.getAffineTransform` (not part of the
repository source).  Spec §4.1 affineTransform: solve the unique 2x3
matrix M with M·srcᵢ = dstᵢ for the three correspondences; fail with
DegenerateGeometry when the three source points are collinear (the
linear system is singular exactly when (s1-s0) × (s2-s0) = 0).  The
solution is the closed form A = [d1-d0 | d2-d0]·[s1-s0 | s2-s0]⁻¹ with
translation t = d0 - A·s0. -/
def getAffineTransform (s0 s1 s2 d0 d1 d2 : P2) : Except Err Aff :=
  let u : P2 := (s1.1 - s0.1, s1.2 - s0.2)
  let v : P2 := (s2.1 - s0.1, s2.2 - s0.2)
  let det := u.1 * v.2 - u.2 * v.1
  if det = 0 then .error .degenerateGeometry
  else
    let du : P2 := (d1.1 - d0.1, d1.2 - d0.2)
    let dv : P2 := (d2.1 - d0.1, d2.2 - d0.2)
    let a := (du.1 * v.2 - dv.1 * u.2) / det
    let b := (dv.1 * u.1 - du.1 * v.1) / det
    let d := (du.2 * v.2 - dv.2 * u.2) / det
    let e := (dv.2 * u.1 - du.2 * v.1) / det
    .ok ⟨a, b, d0.1 - a * s0.1 - b * s0.2, d, e, d0.2 - d * s0.1 - e * s0.2⟩

/-- src/app.py lines 45-56 (`ImageTransformer.affine_transform`): solve
the affine matrix from the two point triples and warp onto a canvas of
the input size (shape[1], shape[0]) = (cols, rows). -/
def ImageTransformer.affine_transform (t : ImageTransformer)
    (s0 s1 s2 d0 d1 d2 : P2) : Except Err Image :=
  (getAffineTransform s0 s1 s2 d0 d1 d2).map
    (fun M => warpAffine t.image M (t.image.cols, t.image.rows))

/-- A 3x3 homogeneous projective matrix (spec §3 TransformMatrix),
row-major. -/
structure Mat3 where
  m00 : ℚ
  m01 : ℚ
  m02 : ℚ
  m10 : ℚ
  m11 : ℚ
  m12 : ℚ
  m20 : ℚ
  m21 : ℚ
  m22 : ℚ

/-- Determinant of a 3x3 matrix. -/
def Mat3.det (M : Mat3) : ℚ :=
  M.m00 * (M.m11 * M.m22 - M.m12 * M.m21) -
    M.m01 * (M.m10 * M.m22 - M.m12 * M.m20) +
    M.m02 * (M.m10 * M.m21 - M.m11 * M.m20)

/-- Inverse of a 3x3 matrix via the adjugate, or `none` when singular. -/
def Mat3.inv (M : Mat3) : Option Mat3 :=
  let dt := M.det
  if dt = 0 then none
  else some
    ⟨(M.m11 * M.m22 - M.m12 * M.m21) / dt, (M.m02 * M.m21 - M.m01 * M.m22) / dt,
     (M.m01 * M.m12 - M.m02 * M.m11) / dt, (M.m12 * M.m20 - M.m10 * M.m22) / dt,
     (M.m00 * M.m22 - M.m02 * M.m20) / dt, (M.m02 * M.m10 - M.m00 * M.m12) / dt,
     (M.m10 * M.m21 - M.m11 * M.m20) / dt, (M.m01 * M.m20 - M.m00 * M.m21) / dt,
     (M.m00 * M.m11 - M.m01 * M.m10) / dt⟩

/-- Modelled from the spec: the source coordinate the perspective warp
samples for destination pixel `(x, y)` — back-project through the
inverse matrix to a homogeneous coordinate and normalize by the w
component (spec §4.1 projective); `none` when the matrix is singular or
the back-projected point is at infinity (w = 0). -/
def warpPerspBackmap (M : Mat3) (x y : ℕ) : Option P2 :=
  match M.inv with
  | none => none
  | some Mi =>
    let u := Mi.m00 * (x : ℚ) + Mi.m01 * (y : ℚ) + Mi.m02
    let v := Mi.m10 * (x : ℚ) + Mi.m11 * (y : ℚ) + Mi.m12
    let w := Mi.m20 * (x : ℚ) + Mi.m21 * (y : ℚ) + Mi.m22
    if w = 0 then none else some (u / w, v / w)

/-- Modelled from the spec: `cv2.warpPerspective` (not part of the
repository source).  Spec §4 perspective warp: identical to the affine
warp but through the 3x3 homogeneous matrix with division by w;
out-of-bounds source samples are filled with the border value 0. -/
def warpPerspective (img : Image) (M : Mat3) (dsize : ℕ × ℕ) : Image :=
  { rows := dsize.2, cols := dsize.1, channels := img.channels,
    px := fun y x c =>
      match warpPerspBackmap M x y with
      | none => 0
      | some p => if inSrcBounds img p then sampleBilinear img p c else 0 }

/-- Find the first row whose leading entry is nonzero; return it and the
remaining rows in order. -/
def findPivot : List (List ℚ) → Option (List ℚ × List (List ℚ))
  | [] => none
  | r :: rs =>
    if r.headD 0 ≠ 0 then some (r, rs)
    else
      match findPivot rs with
      | some (p, rest) => some (p, r :: rest)
      | none => none

/-- Gaussian elimination on an augmented `n × (n+1)` system, recursing on
the row count `n`: pick a pivot row with nonzero leading entry (`none`
when every leading entry is zero, i.e. the system is singular), scale it
to a leading 1, eliminate the leading column from the other rows, solve
the reduced system, and back-substitute. -/
def gaussSolveAux : ℕ → List (List ℚ) → Option (List ℚ)
  | 0, _ => some []
  | n + 1, m =>
    match findPivot m with
    | none => none
    | some (p, rest) =>
      let pn := p.map (fun a => a / p.headD 1)
      let rest2 := rest.map (fun r => (List.zipWith (fun a b => a - r.headD 0 * b) r pn).tail)
      match gaussSolveAux n rest2 with
      | none => none
      | some xs =>
        let tl := pn.tail
        let x0 := tl.getLastD 0 - (List.zipWith (fun a b => a * b) tl.dropLast xs).sum
        some (x0 :: xs)

/-- Solve a square augmented linear system; `none` when singular. -/
def gaussSolve (m : List (List ℚ)) : Option (List ℚ) :=
  gaussSolveAux m.length m

/-- The two DLT equations contributed by one correspondence
src = (x, y) ↦ dst = (X, Y) to the 8×8 perspective system
(spec §4.1 projective: "the standard DLT-style linear system",
normalized so the bottom-right entry is 1). -/
def dltRows (sp dp : P2) : List (List ℚ) :=
  [[sp.1, sp.2, 1, 0, 0, 0, -sp.1 * dp.1, -sp.2 * dp.1, dp.1],
   [0, 0, 0, sp.1, sp.2, 1, -sp.1 * dp.2, -sp.2 * dp.2, dp.2]]

/-- Modelled from the spec: `cv2.getPerspectiveTransform` (not part of
the repository source).  Spec §4.1 projective: solve the 3x3 homogeneous
matrix (8 unknowns, bottom-right entry fixed to 1) from the 4 point
correspondences via the DLT linear system; fail with DegenerateGeometry
when the system matrix is singular. -/
def getPerspectiveTransform (s0 s1 s2 s3 d0 d1 d2 d3 : P2) : Except Err Mat3 :=
  match gaussSolve (dltRows s0 d0 ++ dltRows s1 d1 ++ dltRows s2 d2 ++ dltRows s3 d3) with
  | none => .error .degenerateGeometry
  | some h =>
    .ok ⟨h.getD 0 0, h.getD 1 0, h.getD 2 0, h.getD 3 0, h.getD 4 0,
         h.getD 5 0, h.getD 6 0, h.getD 7 0, 1⟩

/-- src/app.py lines 71-82 (`ImageTransformer.projective`): solve the
perspective matrix from the two point quadruples and warp onto a canvas
of the input size (shape[1], shape[0]) = (cols, rows). -/
def ImageTransformer.projective (t : ImageTransformer)
    (s0 s1 s2 s3 d0 d1 d2 d3 : P2) : Except Err Image :=
  (getPerspectiveTransform s0 s1 s2 s3 d0 d1 d2 d3).map
    (fun M => warpPerspective t.image M (t.image.cols, t.image.rows))

/-- The four cubic-convolution weights for fractional offset `t`
(spec glossary "Bicubic interpolation: resampling using a 4×4
neighborhood weighted by a cubic kernel"), with the customary kernel
parameter A = -3/4. -/
def cubicWeights (t : ℚ) : List ℚ :=
  let A : ℚ := -3 / 4
  let w0 := ((A * (t + 1) - 5 * A) * (t + 1) + 8 * A) * (t + 1) - 4 * A
  let w1 := ((A + 2) * t - (A + 3)) * t * t + 1
  let w2 := ((A + 2) * (1 - t) - (A + 3)) * (1 - t) * (1 - t) + 1
  [w0, w1, w2, 1 - w0 - w1 - w2]

/-- Bicubic interpolation at a rational source coordinate: the 4×4
neighbourhood of `(x, y)` weighted by the cubic convolution kernel. -/
def bicubicAt (img : Image) (p : P2) (c : ℕ) : ℚ :=
  let x0 : ℤ := ⌊p.1⌋
  let y0 : ℤ := ⌊p.2⌋
  let wx := cubicWeights (p.1 - (x0 : ℚ))
  let wy := cubicWeights (p.2 - (y0 : ℚ))
  ((List.range 4).map (fun j =>
    wy.getD j 0 * ((List.range 4).map (fun i =>
      wx.getD i 0 * img.at0 (y0 + (j : ℤ) - 1) (x0 + (i : ℤ) - 1) c)).sum)).sum

/-- Modelled from the spec: `cv2.resize` with dsize = None and bicubic
interpolation (not part of the repository source).  Spec §4.1 scale:
fail with InvalidParameter when fx ≤ 0 or fy ≤ 0; otherwise the new
dimensions are round(width·fx) × round(height·fy), and each output pixel
is resampled bicubically at its back-mapped source coordinate
(x / fx, y / fy). -/
def resize (img : Image) (fx fy : ℚ) : Except Err Image :=
  if fx ≤ 0 ∨ fy ≤ 0 then .error .invalidParameter
  else
    .ok { rows := (round ((img.rows : ℚ) * fy)).toNat,
          cols := (round ((img.cols : ℚ) * fx)).toNat,
          channels := img.channels,
          px := fun y x c => (round (bicubicAt img ((x : ℚ) / fx, (y : ℚ) / fy) c)).toNat }

/-- src/app.py lines 20-30 (`ImageTransformer.scale`): forward the two
scale factors to the library resize with bicubic interpolation. -/
def ImageTransformer.scale (t : ImageTransformer) (fx fy : ℚ) : Except Err Image :=
  resize t.image fx fy

/-!
Method-call semantics for the frame property.  A Python method call
`t.op(args)` reads the object and leaves it in a post-call state; the
five method bodies (src/app.py lines 20-82) never assign to `self.image`
and never write into the stored array (the spec §3/§4.1: the image is
immutable once loaded, each operation returns a new array), so each
post-call state carries the same stored image.  The `*Call` functions
make that state passing explicit: they return the method result
together with the transformer state after the call.
-/

/-- The call `t.scale(fx, fy)`: result and post-call state. -/
def scaleCall (t : ImageTransformer) (fx fy : ℚ) :
    Except Err Image × ImageTransformer :=
  (t.scale fx fy, { image := t.image })

/-- The call `t.rotate(angle)`: result and post-call state. -/
def rotateCall (t : ImageTransformer) (co si : ℚ) :
    Image × ImageTransformer :=
  (t.rotate co si, { image := t.image })

/-- The call `t.affine_transform(pts1, pts2)`: result and post-call state. -/
def affineTransformCall (t : ImageTransformer) (s0 s1 s2 d0 d1 d2 : P2) :
    Except Err Image × ImageTransformer :=
  (t.affine_transform s0 s1 s2 d0 d1 d2, { image := t.image })

/-- The call `t.translate(dx, dy)`: result and post-call state. -/
def translateCall (t : ImageTransformer) (dx dy : ℚ) :
    Image × ImageTransformer :=
  (t.translate dx dy, { image := t.image })

/-- The call `t.projective(pts1, pts2)`: result and post-call state. -/
def projectiveCall (t : ImageTransformer) (s0 s1 s2 s3 d0 d1 d2 d3 : P2) :
    Except Err Image × ImageTransformer :=
  (t.projective s0 s1 s2 s3 d0 d1 d2 d3, { image := t.image })

/-- The 4×4 single-channel test image of spec §8: sample 255 at
(row 0, col 0) and 0 elsewhere. -/
def img4 : Image :=
  { rows := 4, cols := 4, channels := 1,
    px := fun y x _ => if y = 0 ∧ x = 0 then 255 else 0 }

/-- A 1×1 single-channel image used to exercise border behaviour. -/
def img1 : Image :=
  { rows := 1, cols := 1, channels := 1, px := fun _ _ _ => 7 }

/-- The identity 2x3 affine matrix. -/
def idAff : Aff := ⟨1, 0, 0, 0, 1, 0⟩

theorem idAff_inv : Aff.inv idAff = some idAff := by
  simp [Aff.inv, idAff]

theorem idAff_apply (p : P2) : idAff.apply p = p := by
  simp [Aff.apply, idAff]

/-- The source fetch at in-range natural coordinates is the stored sample. -/
theorem at0_natCoords (img : Image) (x y : ℕ) (c : ℕ)
    (hx : x < img.cols) (hy : y < img.rows) :
    img.at0 (y : ℤ) (x : ℤ) c = (img.px y x c : ℚ) := by
  rw [Image.at0, if_pos]
  · simp
  · exact ⟨Int.ofNat_nonneg y, by exact_mod_cast hy, Int.ofNat_nonneg x, by exact_mod_cast hx⟩

/-- Bilinear interpolation at exact in-range integer coordinates returns
the stored sample: the fractional weights vanish. -/
theorem bilinearAt_natCoords (img : Image) (x y : ℕ) (c : ℕ)
    (hx : x < img.cols) (hy : y < img.rows) :
    bilinearAt img ((x : ℚ), (y : ℚ)) c = (img.px y x c : ℚ) := by
  unfold bilinearAt
  simp only [Int.floor_natCast, Int.cast_natCast, sub_self, zero_mul, mul_zero,
    one_mul, mul_one, sub_zero, zero_add, add_zero]
  exact at0_natCoords img x y c hx hy

/-- A bilinear sample at exact in-range integer coordinates is the
stored sample. -/
theorem sampleBilinear_natCoords (img : Image) (x y : ℕ) (c : ℕ)
    (hx : x < img.cols) (hy : y < img.rows) :
    sampleBilinear img ((x : ℚ), (y : ℚ)) c = img.px y x c := by
  rw [sampleBilinear, bilinearAt_natCoords img x y c hx hy]
  rw [round_natCast]
  exact Int.toNat_natCast _

/-- In-range natural coordinates are within the source bounds. -/
theorem inSrcBounds_natCoords (img : Image) (x y : ℕ)
    (hx : x < img.cols) (hy : y < img.rows) :
    inSrcBounds img ((x : ℚ), (y : ℚ)) = true := by
  rw [inSrcBounds, decide_eq_true_eq]
  refine ⟨by positivity, ?_, by positivity, ?_⟩
  · have : (x : ℚ) + 1 ≤ (img.cols : ℚ) := by exact_mod_cast hx
    linarith
  · have : (y : ℚ) + 1 ≤ (img.rows : ℚ) := by exact_mod_cast hy
    linarith

/-- Warping with the identity matrix onto a canvas of the input size
reproduces the input exactly. -/
theorem warpAffine_id_same (img : Image) :
    Image.Same (warpAffine img idAff (img.cols, img.rows)) img := by
  refine ⟨rfl, rfl, rfl, ?_⟩
  intro y x c hy hx _
  show (match warpAffineBackmap idAff x y with
    | none => 0
    | some p => if inSrcBounds img p then sampleBilinear img p c else 0) = img.px y x c
  have hb : warpAffineBackmap idAff x y = some ((x : ℚ), (y : ℚ)) := by
    rw [warpAffineBackmap, idAff_inv]
    simp [idAff_apply]
  rw [hb]
  simp only
  rw [if_pos (inSrcBounds_natCoords img x y hx hy)]
  exact sampleBilinear_natCoords img x y c hx hy

/-- The rotation matrix at angle 0 (cosine 1, sine 0) with unit scale is
the identity, whatever the center. -/
theorem getRotationMatrix2D_zero (center : P2) :
    getRotationMatrix2D center 1 0 1 = idAff := by
  simp [getRotationMatrix2D, idAff]

/-- The matrix the claim C8 states rotate must warp by:
[[cosθ, sinθ, (1-cosθ)·cx - sinθ·cy], [-sinθ, cosθ, sinθ·cx + (1-cosθ)·cy]],
written directly from the words of the claim, with the cosine `co` and
sine `si`. -/
def specRotationMatrix (co si cx cy : ℚ) : Aff :=
  ⟨co, si, (1 - co) * cx - si * cy, -si, co, si * cx + (1 - co) * cy⟩

/-- **C1.** For every image and every pair of scale factors with fx ≤ 0
or fy ≤ 0, the scale operation fails with an InvalidParameter error and
produces no output image. -/
theorem scale_nonpos_invalidParameter (t : ImageTransformer) (fx fy : ℚ)
    (h : fx ≤ 0 ∨ fy ≤ 0) :
    t.scale fx fy = .error .invalidParameter := by
  rw [ImageTransformer.scale, resize, if_pos h]

/-- Witness for C1: scaling the 4×4 test image with fx = 0 fails with
InvalidParameter. -/
theorem scale_nonpos_invalidParameter_witness :
    ((0 : ℚ) ≤ 0 ∨ (1 : ℚ) ≤ 0) ∧
      ImageTransformer.scale ⟨img4⟩ 0 1 = .error .invalidParameter :=
  ⟨Or.inl le_rfl, scale_nonpos_invalidParameter ⟨img4⟩ 0 1 (Or.inl le_rfl)⟩

/-- **C5.** For every image I, translate(I, 0, 0) returns an image
exactly equal to I, pixel for pixel. -/
theorem translate_zero_zero_exact (t : ImageTransformer) :
    Image.Same (t.translate 0 0) t.image :=
  warpAffine_id_same t.image

/-- **C6.** For every image I, rotate(I, 0) returns an image exactly
equal to I, with no resampling drift.  The angle 0 enters the rational
model through its exact cosine 1 and sine 0. -/
theorem rotate_zero_exact (t : ImageTransformer) :
    Image.Same (t.rotate 1 0) t.image := by
  show Image.Same
    (warpAffine t.image
      (getRotationMatrix2D ((t.image.cols : ℚ) / 2, (t.image.rows : ℚ) / 2) 1 0 1)
      (t.image.cols, t.image.rows)) t.image
  rw [getRotationMatrix2D_zero]
  exact warpAffine_id_same t.image

/-- **C8.** For every image and every angle, rotate warps the image by
the 2×3 matrix [[cosθ, sinθ, (1-cosθ)·cx - sinθ·cy],
[-sinθ, cosθ, sinθ·cx + (1-cosθ)·cy]] with center
(cx, cy) = (W/2, H/2) and unit scale. -/
theorem rotate_matrix_is_spec (t : ImageTransformer) (co si : ℚ) :
    t.rotate co si =
      warpAffine t.image
        (specRotationMatrix co si ((t.image.cols : ℚ) / 2) ((t.image.rows : ℚ) / 2))
        (t.image.cols, t.image.rows) := by
  show warpAffine t.image
      (getRotationMatrix2D ((t.image.cols : ℚ) / 2, (t.image.rows : ℚ) / 2) co si 1)
      (t.image.cols, t.image.rows) = _
  have hM : getRotationMatrix2D ((t.image.cols : ℚ) / 2, (t.image.rows : ℚ) / 2) co si 1 =
      specRotationMatrix co si ((t.image.cols : ℚ) / 2) ((t.image.rows : ℚ) / 2) := by
    simp [getRotationMatrix2D, specRotationMatrix]
  rw [hM]

/-- **C7.** On the 4×4 single-channel image with 255 at (row 0, col 0)
and 0 elsewhere, translate(dx = 1, dy = 0) places the 255 at
(row 0, col 1) and zero-fills column 0. -/
theorem translate_img4_shifts_right :
    (ImageTransformer.translate ⟨img4⟩ 1 0).px 0 1 0 = 255 ∧
      ∀ y : Fin 4, (ImageTransformer.translate ⟨img4⟩ 1 0).px y 0 0 = 0 := by
  constructor
  · norm_num [ImageTransformer.translate, warpAffine, warpAffineBackmap, translationMatrix,
      Aff.inv, Aff.apply, inSrcBounds, sampleBilinear, bilinearAt, Image.at0, img4, round_eq]
    all_goals simp
  · intro y
    fin_cases y <;>
      norm_num [ImageTransformer.translate, warpAffine, warpAffineBackmap, translationMatrix,
        Aff.inv, Aff.apply, inSrcBounds, sampleBilinear, bilinearAt, Image.at0, img4, round_eq]

/-- **C9.** Every operation call leaves the stored source
image unchanged: the post-call state equals the pre-call state, sample
for sample.  (The method bodies of src/app.py lines 20-82 never assign
to `self.image` and never write into the stored array; the spec sentence
"returns a new array" freshness is the absence of such writes, made
explicit by the state-passing `*Call` functions.) -/
theorem operations_leave_source_untouched (t : ImageTransformer)
    (fx fy co si dx dy : ℚ) (s0 s1 s2 d0 d1 d2 p0 p1 p2 p3 q0 q1 q2 q3 : P2) :
    (scaleCall t fx fy).2 = t ∧
      (rotateCall t co si).2 = t ∧
      (affineTransformCall t s0 s1 s2 d0 d1 d2).2 = t ∧
      (translateCall t dx dy).2 = t ∧
      (projectiveCall t p0 p1 p2 p3 q0 q1 q2 q3).2 = t ∧
      ∀ y x c,
        (scaleCall t fx fy).2.image.px y x c = t.image.px y x c ∧
        (rotateCall t co si).2.image.px y x c = t.image.px y x c ∧
        (affineTransformCall t s0 s1 s2 d0 d1 d2).2.image.px y x c = t.image.px y x c ∧
        (translateCall t dx dy).2.image.px y x c = t.image.px y x c ∧
        (projectiveCall t p0 p1 p2 p3 q0 q1 q2 q3).2.image.px y x c = t.image.px y x c := by
  obtain ⟨img⟩ := t
  exact ⟨rfl, rfl, rfl, rfl, rfl, fun y x c => ⟨rfl, rfl, rfl, rfl, rfl⟩⟩

/-- The transformer holding the 4×4 test image. -/
def t4 : ImageTransformer := ⟨img4⟩

/-- **C2.** affine_transform with three collinear source points, and
projective with four correspondence points whose DLT system is singular,
fail with a DegenerateGeometry error and produce no output array.  (The
model is a total function, so neither call can crash.) -/
theorem degenerate_points_error (t : ImageTransformer)
    (s0 s1 s2 d0 d1 d2 p0 p1 p2 p3 q0 q1 q2 q3 : P2) :
    (collinear3 s0 s1 s2 →
      t.affine_transform s0 s1 s2 d0 d1 d2 = .error .degenerateGeometry) ∧
    (gaussSolve (dltRows p0 q0 ++ dltRows p1 q1 ++ dltRows p2 q2 ++ dltRows p3 q3) = none →
      t.projective p0 p1 p2 p3 q0 q1 q2 q3 = .error .degenerateGeometry) := by
  constructor
  · intro h
    rw [collinear3] at h
    rw [ImageTransformer.affine_transform, getAffineTransform]
    rw [if_pos h]
    rfl
  · intro h
    rw [ImageTransformer.projective, getPerspectiveTransform, h]
    rfl

/-- Witness for C2: the collinear triple (0,0), (1,1), (2,2) and the
fully degenerate quadruple with all four source points (0,0) both yield
DegenerateGeometry on the 4×4 test image. -/
theorem degenerate_points_error_witness :
    collinear3 (0, 0) (1, 1) (2, 2) ∧
    gaussSolve (dltRows (0, 0) (0, 0) ++ dltRows (0, 0) (1, 0) ++
      dltRows (0, 0) (0, 1) ++ dltRows (0, 0) (1, 1)) = none ∧
    t4.affine_transform (0, 0) (1, 1) (2, 2) (0, 0) (1, 0) (0, 1) =
      .error .degenerateGeometry ∧
    t4.projective (0, 0) (0, 0) (0, 0) (0, 0) (0, 0) (1, 0) (0, 1) (1, 1) =
      .error .degenerateGeometry := by
  have hc : collinear3 ((0 : ℚ), (0 : ℚ)) (1, 1) (2, 2) := by
    rw [collinear3]; norm_num
  have hg : gaussSolve (dltRows ((0 : ℚ), (0 : ℚ)) (0, 0) ++ dltRows (0, 0) (1, 0) ++
      dltRows (0, 0) (0, 1) ++ dltRows (0, 0) (1, 1)) = none := by
    norm_num [gaussSolve, gaussSolveAux, findPivot, dltRows]
  exact ⟨hc, hg,
    (degenerate_points_error t4 (0, 0) (1, 1) (2, 2) (0, 0) (1, 0) (0, 1)
      (0, 0) (0, 0) (0, 0) (0, 0) (0, 0) (1, 0) (0, 1) (1, 1)).1 hc,
    (degenerate_points_error t4 (0, 0) (1, 1) (2, 2) (0, 0) (1, 0) (0, 1)
      (0, 0) (0, 0) (0, 0) (0, 0) (0, 0) (1, 0) (0, 1) (1, 1)).2 hg⟩

/-- With positive scale factors, resize succeeds and the output geometry
is round(width·fx) × round(height·fy) with the channel count kept. -/
theorem resize_pos (img : Image) (fx fy : ℚ) (hfx : 0 < fx) (hfy : 0 < fy) :
    ∃ out, resize img fx fy = .ok out ∧ out.channels = img.channels ∧
      out.cols = (round ((img.cols : ℚ) * fx)).toNat ∧
      out.rows = (round ((img.rows : ℚ) * fy)).toNat := by
  rw [resize, if_neg (by push_neg; exact ⟨hfx, hfy⟩)]
  exact ⟨_, rfl, rfl, rfl, rfl⟩

/-- **C3.** Every operation preserves the channel count; rotate,
affine_transform, translate and projective preserve the input height
and width; only scale changes dimensions, proportionally to (fx, fy). -/
theorem output_geometry_invariants (t : ImageTransformer)
    (fx fy co si dx dy : ℚ) (s0 s1 s2 d0 d1 d2 p0 p1 p2 p3 q0 q1 q2 q3 : P2)
    (hfx : 0 < fx) (hfy : 0 < fy) :
    (∃ out, t.scale fx fy = .ok out ∧ out.channels = t.image.channels ∧
      out.cols = (round ((t.image.cols : ℚ) * fx)).toNat ∧
      out.rows = (round ((t.image.rows : ℚ) * fy)).toNat) ∧
    sameGeom (t.rotate co si) t.image ∧
    (∀ out, t.affine_transform s0 s1 s2 d0 d1 d2 = .ok out → sameGeom out t.image) ∧
    sameGeom (t.translate dx dy) t.image ∧
    (∀ out, t.projective p0 p1 p2 p3 q0 q1 q2 q3 = .ok out → sameGeom out t.image) := by
  refine ⟨resize_pos t.image fx fy hfx hfy, ⟨rfl, rfl, rfl⟩, ?_, ⟨rfl, rfl, rfl⟩, ?_⟩
  · intro out h
    rw [ImageTransformer.affine_transform] at h
    cases hA : getAffineTransform s0 s1 s2 d0 d1 d2 with
    | error e => rw [hA] at h; exact absurd h (by simp [Except.map])
    | ok M =>
      rw [hA] at h
      have h2 : warpAffine t.image M (t.image.cols, t.image.rows) = out := by
        simpa [Except.map] using h
      rw [← h2]
      exact ⟨rfl, rfl, rfl⟩
  · intro out h
    rw [ImageTransformer.projective] at h
    cases hP : getPerspectiveTransform p0 p1 p2 p3 q0 q1 q2 q3 with
    | error e => rw [hP] at h; exact absurd h (by simp [Except.map])
    | ok M =>
      rw [hP] at h
      have h2 : warpPerspective t.image M (t.image.cols, t.image.rows) = out := by
        simpa [Except.map] using h
      rw [← h2]
      exact ⟨rfl, rfl, rfl⟩

/-- Witness for C3: on the 4×4 test image with fx = 2, fy = 3, a 90°
rotation, the identity affine correspondence, a (5, -7) translation and
the identity projective correspondence. -/
theorem output_geometry_invariants_witness :
    (0 : ℚ) < 2 ∧ (0 : ℚ) < 3 ∧
    ((∃ out, t4.scale 2 3 = .ok out ∧ out.channels = t4.image.channels ∧
      out.cols = (round ((t4.image.cols : ℚ) * 2)).toNat ∧
      out.rows = (round ((t4.image.rows : ℚ) * 3)).toNat) ∧
    sameGeom (t4.rotate 0 1) t4.image ∧
    (∀ out, t4.affine_transform (0, 0) (1, 0) (0, 1) (0, 0) (1, 0) (0, 1) = .ok out →
      sameGeom out t4.image) ∧
    sameGeom (t4.translate 5 (-7)) t4.image ∧
    (∀ out, t4.projective (0, 0) (0, 1) (1, 0) (1, 1) (0, 0) (0, 1) (1, 0) (1, 1) = .ok out →
      sameGeom out t4.image)) :=
  ⟨by norm_num, by norm_num,
    output_geometry_invariants t4 2 3 0 1 5 (-7) (0, 0) (1, 0) (0, 1) (0, 0) (1, 0) (0, 1)
      (0, 0) (0, 1) (1, 0) (1, 1) (0, 0) (0, 1) (1, 0) (1, 1) (by norm_num) (by norm_num)⟩

/-- **C4.** With fx, fy > 0, scale returns an image of width
round(W·fx) and height round(H·fy); in particular scale(I, 2, 2) has
exactly doubled dimensions. -/
theorem scale_dims_round (t : ImageTransformer) (fx fy : ℚ)
    (hfx : 0 < fx) (hfy : 0 < fy) :
    (∃ out, t.scale fx fy = .ok out ∧
      out.cols = (round ((t.image.cols : ℚ) * fx)).toNat ∧
      out.rows = (round ((t.image.rows : ℚ) * fy)).toNat) ∧
    (∃ out2, t.scale 2 2 = .ok out2 ∧
      out2.cols = 2 * t.image.cols ∧ out2.rows = 2 * t.image.rows) := by
  constructor
  · obtain ⟨out, h1, _, h3, h4⟩ := resize_pos t.image fx fy hfx hfy
    exact ⟨out, h1, h3, h4⟩
  · obtain ⟨out2, h1, _, h3, h4⟩ :=
      resize_pos t.image 2 2 (by norm_num) (by norm_num)
    refine ⟨out2, h1, ?_, ?_⟩
    · rw [h3, show ((t.image.cols : ℚ) * 2) = ((2 * t.image.cols : ℕ) : ℚ) by push_cast; ring,
        round_natCast]
      exact Int.toNat_natCast _
    · rw [h4, show ((t.image.rows : ℚ) * 2) = ((2 * t.image.rows : ℕ) : ℚ) by push_cast; ring,
        round_natCast]
      exact Int.toNat_natCast _

/-- The transformer holding the 1×1 test image. -/
def t1 : ImageTransformer := ⟨img1⟩

/-- **C10.** In every warping operation (rotate, affine_transform,
translate, projective), every output pixel whose back-mapped source
coordinate falls outside the source image bounds is filled with the
constant value exactly 0 in every channel. -/
theorem out_of_bounds_fills_zero (t : ImageTransformer)
    (co si dx dy : ℚ) (s0 s1 s2 d0 d1 d2 p0 p1 p2 p3 q0 q1 q2 q3 : P2)
    (x y ch : ℕ) (pa pt pf pp : P2) (M : Aff) (H : Mat3) :
    (warpAffineBackmap
        (getRotationMatrix2D ((t.image.cols : ℚ) / 2, (t.image.rows : ℚ) / 2) co si 1) x y =
        some pa →
      inSrcBounds t.image pa = false → (t.rotate co si).px y x ch = 0) ∧
    (warpAffineBackmap (translationMatrix dx dy) x y = some pt →
      inSrcBounds t.image pt = false → (t.translate dx dy).px y x ch = 0) ∧
    (getAffineTransform s0 s1 s2 d0 d1 d2 = .ok M →
      warpAffineBackmap M x y = some pf → inSrcBounds t.image pf = false →
      ∀ out, t.affine_transform s0 s1 s2 d0 d1 d2 = .ok out → out.px y x ch = 0) ∧
    (getPerspectiveTransform p0 p1 p2 p3 q0 q1 q2 q3 = .ok H →
      warpPerspBackmap H x y = some pp → inSrcBounds t.image pp = false →
      ∀ out, t.projective p0 p1 p2 p3 q0 q1 q2 q3 = .ok out → out.px y x ch = 0) := by
  refine ⟨?_, ?_, ?_, ?_⟩
  · intro h1 h2
    show (match warpAffineBackmap
        (getRotationMatrix2D ((t.image.cols : ℚ) / 2, (t.image.rows : ℚ) / 2) co si 1) x y with
      | none => 0
      | some p => if inSrcBounds t.image p then sampleBilinear t.image p ch else 0) = 0
    rw [h1]
    simp [h2]
  · intro h1 h2
    show (match warpAffineBackmap (translationMatrix dx dy) x y with
      | none => 0
      | some p => if inSrcBounds t.image p then sampleBilinear t.image p ch else 0) = 0
    rw [h1]
    simp [h2]
  · intro hA hb hin out hout
    rw [ImageTransformer.affine_transform, hA] at hout
    have h2 : warpAffine t.image M (t.image.cols, t.image.rows) = out := by
      simpa [Except.map] using hout
    rw [← h2]
    show (match warpAffineBackmap M x y with
      | none => 0
      | some p => if inSrcBounds t.image p then sampleBilinear t.image p ch else 0) = 0
    rw [hb]
    simp [hin]
  · intro hH hb hin out hout
    rw [ImageTransformer.projective, hH] at hout
    have h2 : warpPerspective t.image H (t.image.cols, t.image.rows) = out := by
      simpa [Except.map] using hout
    rw [← h2]
    show (match warpPerspBackmap H x y with
      | none => 0
      | some p => if inSrcBounds t.image p then sampleBilinear t.image p ch else 0) = 0
    rw [hb]
    simp [hin]

/-- Witness for C10: on concrete images, a 90° rotation of the 1×1
image, a (1, 0) translation of the 4×4 image, the affine shift by
(1, 0), and the projective shift by (1, 0) each back-map pixel (0, 0)
outside the source and produce the border value 0 there. -/
theorem out_of_bounds_fills_zero_witness :
    (warpAffineBackmap
        (getRotationMatrix2D ((t1.image.cols : ℚ) / 2, (t1.image.rows : ℚ) / 2) 0 1 1) 0 0 =
        some (1, 0) ∧
      inSrcBounds t1.image (1, 0) = false ∧ (t1.rotate 0 1).px 0 0 0 = 0) ∧
    (warpAffineBackmap (translationMatrix 1 0) 0 0 = some (-1, 0) ∧
      inSrcBounds t4.image (-1, 0) = false ∧ (t4.translate 1 0).px 0 0 0 = 0) ∧
    (getAffineTransform (0, 0) (1, 0) (0, 1) (1, 0) (2, 0) (1, 1) =
        .ok ⟨1, 0, 1, 0, 1, 0⟩ ∧
      warpAffineBackmap ⟨1, 0, 1, 0, 1, 0⟩ 0 0 = some (-1, 0) ∧
      ∀ out, t4.affine_transform (0, 0) (1, 0) (0, 1) (1, 0) (2, 0) (1, 1) = .ok out →
        out.px 0 0 0 = 0) ∧
    (getPerspectiveTransform (0, 0) (0, 1) (1, 0) (1, 1) (1, 0) (1, 1) (2, 0) (2, 1) =
        .ok ⟨1, 0, 1, 0, 1, 0, 0, 0, 1⟩ ∧
      warpPerspBackmap ⟨1, 0, 1, 0, 1, 0, 0, 0, 1⟩ 0 0 = some (-1, 0) ∧
      ∀ out, t1.projective (0, 0) (0, 1) (1, 0) (1, 1) (1, 0) (1, 1) (2, 0) (2, 1) = .ok out →
        out.px 0 0 0 = 0) := by
  have hra : warpAffineBackmap
      (getRotationMatrix2D ((t1.image.cols : ℚ) / 2, (t1.image.rows : ℚ) / 2) 0 1 1) 0 0 =
      some (1, 0) := by
    norm_num [warpAffineBackmap, getRotationMatrix2D, Aff.inv, Aff.apply, t1, img1]
  have hrb : inSrcBounds t1.image (1, 0) = false := by
    norm_num [inSrcBounds, t1, img1]
  have hta : warpAffineBackmap (translationMatrix 1 0) 0 0 = some (-1, 0) := by
    norm_num [warpAffineBackmap, translationMatrix, Aff.inv, Aff.apply]
  have htb : inSrcBounds t4.image (-1, 0) = false := by
    norm_num [inSrcBounds, t4, img4]
  have haa : getAffineTransform ((0 : ℚ), (0 : ℚ)) (1, 0) (0, 1) (1, 0) (2, 0) (1, 1) =
      .ok ⟨1, 0, 1, 0, 1, 0⟩ := by
    norm_num [getAffineTransform]
  have hab : warpAffineBackmap ⟨1, 0, 1, 0, 1, 0⟩ 0 0 = some (-1, 0) := by
    norm_num [warpAffineBackmap, Aff.inv, Aff.apply]
  have hpa : getPerspectiveTransform ((0 : ℚ), (0 : ℚ)) (0, 1) (1, 0) (1, 1)
      (1, 0) (1, 1) (2, 0) (2, 1) = .ok ⟨1, 0, 1, 0, 1, 0, 0, 0, 1⟩ := by
    norm_num [getPerspectiveTransform, gaussSolve, gaussSolveAux, findPivot, dltRows]
  have hpb : warpPerspBackmap ⟨1, 0, 1, 0, 1, 0, 0, 0, 1⟩ 0 0 = some (-1, 0) := by
    norm_num [warpPerspBackmap, Mat3.inv, Mat3.det]
  have hpc : inSrcBounds t1.image (-1, 0) = false := by
    norm_num [inSrcBounds, t1, img1]
  refine ⟨⟨hra, hrb, ?_⟩, ⟨hta, htb, ?_⟩, ⟨haa, hab, ?_⟩, ⟨hpa, hpb, ?_⟩⟩
  · exact (out_of_bounds_fills_zero t1 0 1 0 0 (0, 0) (1, 0) (0, 1) (1, 0) (2, 0) (1, 1)
      (0, 0) (0, 1) (1, 0) (1, 1) (1, 0) (1, 1) (2, 0) (2, 1) 0 0 0 (1, 0) (-1, 0) (-1, 0)
      (-1, 0) ⟨1, 0, 1, 0, 1, 0⟩ ⟨1, 0, 1, 0, 1, 0, 0, 0, 1⟩).1 hra hrb
  · exact (out_of_bounds_fills_zero t4 0 1 1 0 (0, 0) (1, 0) (0, 1) (1, 0) (2, 0) (1, 1)
      (0, 0) (0, 1) (1, 0) (1, 1) (1, 0) (1, 1) (2, 0) (2, 1) 0 0 0 (1, 0) (-1, 0) (-1, 0)
      (-1, 0) ⟨1, 0, 1, 0, 1, 0⟩ ⟨1, 0, 1, 0, 1, 0, 0, 0, 1⟩).2.1 hta htb
  · exact (out_of_bounds_fills_zero t4 0 1 1 0 (0, 0) (1, 0) (0, 1) (1, 0) (2, 0) (1, 1)
      (0, 0) (0, 1) (1, 0) (1, 1) (1, 0) (1, 1) (2, 0) (2, 1) 0 0 0 (1, 0) (-1, 0) (-1, 0)
      (-1, 0) ⟨1, 0, 1, 0, 1, 0⟩ ⟨1, 0, 1, 0, 1, 0, 0, 0, 1⟩).2.2.1 haa hab htb
  · exact (out_of_bounds_fills_zero t1 0 1 1 0 (0, 0) (1, 0) (0, 1) (1, 0) (2, 0) (1, 1)
      (0, 0) (0, 1) (1, 0) (1, 1) (1, 0) (1, 1) (2, 0) (2, 1) 0 0 0 (1, 0) (-1, 0) (-1, 0)
      (-1, 0) ⟨1, 0, 1, 0, 1, 0⟩ ⟨1, 0, 1, 0, 1, 0, 0, 0, 1⟩).2.2.2 hpa hpb hpc

/-- Witness for C4: the 4×4 test image at fx = 1/2, fy = 3. -/
theorem scale_dims_round_witness :
    (0 : ℚ) < 1 / 2 ∧ (0 : ℚ) < 3 ∧
    ((∃ out, t4.scale (1 / 2) 3 = .ok out ∧
      out.cols = (round ((t4.image.cols : ℚ) * (1 / 2))).toNat ∧
      out.rows = (round ((t4.image.rows : ℚ) * 3)).toNat) ∧
    (∃ out2, t4.scale 2 2 = .ok out2 ∧
      out2.cols = 2 * t4.image.cols ∧ out2.rows = 2 * t4.image.rows)) :=
  ⟨by norm_num, by norm_num,
    scale_dims_round t4 (1 / 2) 3 (by norm_num) (by norm_num)⟩
